import Mathlib

/-
Formal model of the dota2-leaderboard snapshot-history engine
(web/js/stats.js, web/js/leaderboard.js and the Timeline player).

Modelling conventions:
* ISO-8601 timestamps are modelled as integer milliseconds since the epoch
  (the code only compares parsed `Date` values, and parsing is monotone).
* JavaScript optional string fields (`id`, `team_tag`, `team_id`, `country`)
  are modelled as plain strings where `""` stands for absent: in every use in
  the source such a field is only tested for truthiness (`if (player.team_tag)`,
  `player.id || ...`, `player.country || ""`), and `undefined`, `null` and
  `""` are all falsy, so they behave identically.
* A JavaScript object used as a string-keyed map (`playerHistory`) is modelled
  as an association list in insertion order, which is exactly the iteration
  order of `Object.entries` for string keys.
* `Array.prototype.sort` with comparator `(a, b) => b.change - a.change` is a
  stable descending sort by `change` (stability is required by ECMAScript);
  it is modelled by `sortKeyDesc` below, proved sorted and stable.
-/

/-- One `(timestamp, rank)` observation stored in a player's history
(`history[playerId].ranks` entries in `stats.js`). -/
structure Obs where
  timestamp : Int
  rank : Int
deriving DecidableEq, Repr

/-- One raw player record inside a snapshot (`snapshot.players` elements). -/
structure PlayerRec where
  id : String
  name : String
  team_tag : String
  team_id : String
  country : String
  rank : Int
deriving DecidableEq, Repr

/-- One leaderboard snapshot (`{ timestamp, players }`). -/
structure Snapshot where
  timestamp : Int
  players : List PlayerRec
deriving DecidableEq, Repr

/-- `Stats.getPlayerId` (stats.js:227-229):
`player.id || `${player.name}|${player.country || ""}``. -/
def getPlayerId (player : PlayerRec) : String :=
  if player.id ≠ "" then player.id else player.name ++ "|" ++ player.country

/-- Milliseconds in one day (`24 * 60 * 60 * 1000`). -/
def msPerDay : Int := 24 * 60 * 60 * 1000

/-- `Stats.filterSnapshotsByTime` (stats.js:214-221): with `days === 0` or an
empty input the input array is returned as is, otherwise the snapshots whose
timestamp is at least `now - days*24*60*60*1000` are kept, in order. -/
def filterSnapshotsByTime (snapshots : List Snapshot) (days : Nat) (now : Int) :
    List Snapshot :=
  if days = 0 ∨ snapshots.length = 0 then snapshots
  else snapshots.filter (fun s => decide (now - (days : Int) * msPerDay ≤ s.timestamp))

/-- Result of `Leaderboard.getChangeDisplay`: display text and CSS class
(the source field name is `class`, a reserved word in Lean). -/
structure ChangeDisplay where
  text : String
  cls : String
deriving DecidableEq, Repr

/-- `Leaderboard.getChangeDisplay` (leaderboard.js:304-318). `prevRank` is
`none` when the source value is `undefined` or `null`. -/
def getChangeDisplay (currentRank : Int) (prevRank : Option Int) : ChangeDisplay :=
  match prevRank with
  | none => { text := "NEW", cls := "up" }
  | some p =>
    let diff := p - currentRank
    if 0 < diff then { text := "↑" ++ toString diff, cls := "up" }
    else if diff < 0 then { text := "↓" ++ toString diff.natAbs, cls := "down" }
    else { text := "-", cls := "same" }

/-- C9: two records with equal `name` and equal `country` and no precomputed
`id` field (or `id` fields precomputed by the documented
`name + "|" + country` rule) resolve to the same player id, regardless of
their `team_tag` / `team_id` fields, which `getPlayerId` never reads. -/
theorem getPlayerId_independent_of_affiliation (p q : PlayerRec)
    (hname : p.name = q.name) (hcountry : p.country = q.country)
    (hid : (p.id = "" ∧ q.id = "") ∨
      (p.id = p.name ++ "|" ++ p.country ∧ q.id = q.name ++ "|" ++ q.country)) :
    getPlayerId p = getPlayerId q := by
  have hp : getPlayerId p = p.name ++ "|" ++ p.country := by
    rcases hid with ⟨h1, _⟩ | ⟨h1, _⟩ <;> unfold getPlayerId <;>
      by_cases h : p.id = "" <;> simp [h] <;> simp_all
  have hq : getPlayerId q = q.name ++ "|" ++ q.country := by
    rcases hid with ⟨_, h2⟩ | ⟨_, h2⟩ <;> unfold getPlayerId <;>
      by_cases h : q.id = "" <;> simp [h] <;> simp_all
  rw [hp, hq, hname, hcountry]

/-- Witness for C9: two concrete records, same name and country, different
team tags and team ids, no precomputed id, resolve to the same id. -/
theorem getPlayerId_independent_of_affiliation_witness :
    getPlayerId { id := "", name := "n", team_tag := "T1", team_id := "1",
                  country := "SE", rank := 1 } =
    getPlayerId { id := "", name := "n", team_tag := "T2", team_id := "2",
                  country := "SE", rank := 7 } :=
  getPlayerId_independent_of_affiliation _ _ rfl rfl (Or.inl ⟨rfl, rfl⟩)

/-- C6: `filterSnapshotsByTime` with `days = 0` returns the input unchanged;
with `days > 0` it returns `snapshots.filter` of the trailing-window
predicate, which is a subsequence of the input preserving relative order and
contains exactly the snapshots whose timestamp is within the trailing window
(at least `now - days` days in milliseconds). -/
theorem filterSnapshotsByTime_spec (snapshots : List Snapshot) (days : Nat) (now : Int) :
    (days = 0 → filterSnapshotsByTime snapshots days now = snapshots) ∧
    (0 < days →
      filterSnapshotsByTime snapshots days now =
        snapshots.filter (fun s => decide (now - (days : Int) * msPerDay ≤ s.timestamp)) ∧
      (filterSnapshotsByTime snapshots days now).Sublist snapshots ∧
      ∀ s, s ∈ filterSnapshotsByTime snapshots days now ↔
        s ∈ snapshots ∧ now - (days : Int) * msPerDay ≤ s.timestamp) := by
  constructor
  · intro h
    simp [filterSnapshotsByTime, h]
  · intro h
    have hd : ¬ days = 0 := Nat.pos_iff_ne_zero.mp h
    match snapshots with
    | [] =>
      refine ⟨by simp [filterSnapshotsByTime], by simp [filterSnapshotsByTime], ?_⟩
      intro s
      simp [filterSnapshotsByTime]
    | a :: l =>
      have heq : filterSnapshotsByTime (a :: l) days now =
          (a :: l).filter (fun s => decide (now - (days : Int) * msPerDay ≤ s.timestamp)) := by
        simp [filterSnapshotsByTime, hd]
      refine ⟨heq, ?_, ?_⟩
      · rw [heq]; exact List.filter_sublist _
      · intro s
        rw [heq, List.mem_filter]
        simp

/-- Witness for C6: on a concrete two-snapshot sequence, `days = 0` returns
the input unchanged, and `days = 1` keeps exactly the snapshot inside the
trailing one-day window. -/
theorem filterSnapshotsByTime_spec_witness :
    filterSnapshotsByTime [⟨100, []⟩, ⟨5, []⟩] 0 7 = [⟨100, []⟩, ⟨5, []⟩] ∧
    filterSnapshotsByTime [⟨100, []⟩, ⟨5, []⟩] 1 86400100 =
      List.filter (fun s => decide (86400100 - (1 : Int) * msPerDay ≤ s.timestamp))
        [⟨100, []⟩, ⟨5, []⟩] :=
  ⟨(filterSnapshotsByTime_spec [⟨100, []⟩, ⟨5, []⟩] 0 7).1 rfl,
   ((filterSnapshotsByTime_spec [⟨100, []⟩, ⟨5, []⟩] 1 86400100).2 (by decide)).1⟩

/-- C8: `getChangeDisplay` returns the "NEW" badge exactly when the previous
rank is absent; otherwise with `d = prev - current` it returns the
improvement badge `↑d` for `d > 0`, the regression badge `↓|d|` for `d < 0`,
and the unchanged badge for `d = 0`. -/
theorem getChangeDisplay_spec (c p : Int) :
    getChangeDisplay c none = { text := "NEW", cls := "up" } ∧
    (0 < p - c →
      getChangeDisplay c (some p) = { text := "↑" ++ toString (p - c), cls := "up" }) ∧
    (p - c < 0 →
      getChangeDisplay c (some p) = { text := "↓" ++ toString (p - c).natAbs, cls := "down" }) ∧
    (p - c = 0 →
      getChangeDisplay c (some p) = { text := "-", cls := "same" }) := by
  refine ⟨rfl, ?_, ?_, ?_⟩
  · intro h
    simp [getChangeDisplay, h]
  · intro h
    simp [getChangeDisplay, h, not_lt.mpr (le_of_lt h)]
  · intro h
    simp [getChangeDisplay, h]

/-- Witness for C8: concrete badges for previous rank 5 against current
ranks 3, 9 and 5, and the "NEW" badge with no previous rank. -/
theorem getChangeDisplay_spec_witness :
    getChangeDisplay 3 none = { text := "NEW", cls := "up" } ∧
    getChangeDisplay 3 (some 5) = { text := "↑" ++ toString (5 - 3 : Int), cls := "up" } ∧
    getChangeDisplay 9 (some 5) =
      { text := "↓" ++ toString ((5 - 9 : Int)).natAbs, cls := "down" } ∧
    getChangeDisplay 5 (some 5) = { text := "-", cls := "same" } :=
  ⟨(getChangeDisplay_spec 3 5).1,
   (getChangeDisplay_spec 3 5).2.1 (by decide),
   (getChangeDisplay_spec 9 5).2.2.1 (by decide),
   (getChangeDisplay_spec 5 5).2.2.2 (by decide)⟩

/-- One entry of the `playerHistory` map built by `Stats.buildPlayerHistory`
(stats.js:237-271): identity, display fields carried forward, and the ordered
`ranks` observation list. -/
structure PlayerData where
  id : String
  name : String
  team_tag : String
  team_id : String
  country : String
  ranks : List Obs
deriving DecidableEq, Repr

/-- The `playerHistory` object, as an association list in insertion order
(the iteration order of `Object.entries` for string keys). -/
abbrev History : Type := List (String × PlayerData)

/-- The fresh history entry created when a player id is first seen
(stats.js:244-253, followed by the push and the conditional updates, which on
a fresh entry rewrite the fields with the same values). -/
def freshData (pid : String) (p : PlayerRec) (ts : Int) : PlayerData :=
  { id := pid, name := p.name, team_tag := p.team_tag, team_id := p.team_id,
    country := p.country, ranks := [⟨ts, p.rank⟩] }

/-- The update applied to an existing history entry for one observation:
push `(timestamp, rank)` (stats.js:255-258) and overwrite `team_tag` /
`country` only when the observed value is non-empty (stats.js:260-267). -/
def updData (d : PlayerData) (p : PlayerRec) (ts : Int) : PlayerData :=
  { d with ranks := d.ranks ++ [⟨ts, p.rank⟩],
           team_tag := if p.team_tag = "" then d.team_tag else p.team_tag,
           country := if p.country = "" then d.country else p.country }

/-- Processing of one player record against the history map: update the entry
with the record's resolved id in place, or append a fresh entry at the end
(JavaScript object key insertion). -/
def histUpdate (h : History) (pid : String) (p : PlayerRec) (ts : Int) : History :=
  match h with
  | [] => [(pid, freshData pid p ts)]
  | (k, d) :: rest =>
    if k = pid then (k, updData d p ts) :: rest
    else (k, d) :: histUpdate rest pid p ts

/-- Lookup of a key in the history map (first matching entry, which is the
only one: JavaScript object keys are unique). -/
def histLookup (k : String) : History → Option PlayerData
  | [] => none
  | (k', d) :: rest => if k' = k then some d else histLookup k rest

/-- One step of the history fold: one `(timestamp, record)` observation. -/
def histStep (h : History) (tp : Int × PlayerRec) : History :=
  histUpdate h (getPlayerId tp.2) tp.2 tp.1

/-- All `(timestamp, record)` observations of a snapshot list, in processing
order (snapshots in order, records in order within each snapshot). -/
def obsList (snapshots : List Snapshot) : List (Int × PlayerRec) :=
  snapshots.flatMap (fun s => s.players.map (fun p => (s.timestamp, p)))

/-- `Stats.buildPlayerHistory` (stats.js:237-271): filter the snapshots by
time, then fold every player record of every snapshot into the history map. -/
def buildPlayerHistory (snapshots : List Snapshot) (timeDays : Nat) (now : Int) :
    History :=
  (obsList (filterSnapshotsByTime snapshots timeDays now)).foldl histStep []

/-- Insertion step of the stable descending sort by an integer key: `x` is
placed before the first element whose key is not larger than `x`'s. -/
def insertKeyDesc (key : α → Int) (x : α) : List α → List α
  | [] => [x]
  | y :: ys => if key y ≤ key x then x :: y :: ys else y :: insertKeyDesc key x ys

/-- Stable descending insertion sort by an integer key. This is the unique
stable sort realising `Array.prototype.sort((a, b) => key(b) - key(a))`:
see `sortKeyDesc_sorted` and `sortKeyDesc_stable` below. -/
def sortKeyDesc (key : α → Int) : List α → List α
  | [] => []
  | x :: xs => insertKeyDesc key x (sortKeyDesc key xs)

theorem mem_insertKeyDesc (key : α → Int) (x a : α) (l : List α) :
    a ∈ insertKeyDesc key x l ↔ a = x ∨ a ∈ l := by
  induction l with
  | nil => simp [insertKeyDesc]
  | cons y ys ih =>
    by_cases h : key y ≤ key x
    · simp [insertKeyDesc, h]
    · simp only [insertKeyDesc, if_neg h, List.mem_cons, ih]
      tauto

theorem mem_sortKeyDesc (key : α → Int) (a : α) (l : List α) :
    a ∈ sortKeyDesc key l ↔ a ∈ l := by
  induction l with
  | nil => simp [sortKeyDesc]
  | cons x xs ih => simp [sortKeyDesc, mem_insertKeyDesc, ih]

theorem insertKeyDesc_sorted (key : α → Int) (x : α) (l : List α)
    (h : l.Pairwise (fun a b => key b ≤ key a)) :
    (insertKeyDesc key x l).Pairwise (fun a b => key b ≤ key a) := by
  induction l with
  | nil => simp [insertKeyDesc]
  | cons y ys ih =>
    rcases List.pairwise_cons.mp h with ⟨hy, hys⟩
    by_cases hxy : key y ≤ key x
    · simp only [insertKeyDesc, if_pos hxy]
      refine List.pairwise_cons.mpr ⟨?_, h⟩
      intro b hb
      rcases List.mem_cons.mp hb with rfl | hb
      · exact hxy
      · exact le_trans (hy b hb) hxy
    · simp only [insertKeyDesc, if_neg hxy]
      refine List.pairwise_cons.mpr ⟨?_, ih hys⟩
      intro b hb
      rcases (mem_insertKeyDesc key x b ys).mp hb with rfl | hb
      · exact le_of_lt (lt_of_not_le hxy)
      · exact hy b hb

/-- The output of `sortKeyDesc` is sorted in descending key order. -/
theorem sortKeyDesc_sorted (key : α → Int) (l : List α) :
    (sortKeyDesc key l).Pairwise (fun a b => key b ≤ key a) := by
  induction l with
  | nil => simp [sortKeyDesc]
  | cons x xs ih => exact insertKeyDesc_sorted key x _ ih

theorem filter_insertKeyDesc (key : α → Int) (x : α) (l : List α) (c : Int) :
    (insertKeyDesc key x l).filter (fun a => decide (key a = c)) =
      (if key x = c then [x] else []) ++ l.filter (fun a => decide (key a = c)) := by
  induction l with
  | nil =>
    by_cases h : key x = c <;> simp [insertKeyDesc, h]
  | cons y ys ih =>
    by_cases hxy : key y ≤ key x
    · simp only [insertKeyDesc, if_pos hxy, List.filter_cons]
      by_cases h : key x = c <;> simp [h]
    · have hlt : key x < key y := lt_of_not_le hxy
      simp only [insertKeyDesc, if_neg hxy, List.filter_cons, ih]
      by_cases hy : key y = c
      · have hx : ¬ key x = c := by omega
        simp [hy, hx]
      · simp [hy]

/-- Stability of `sortKeyDesc`: elements sharing any key value `c` appear in
the output in their original relative order. -/
theorem sortKeyDesc_stable (key : α → Int) (l : List α) (c : Int) :
    (sortKeyDesc key l).filter (fun a => decide (key a = c)) =
      l.filter (fun a => decide (key a = c)) := by
  induction l with
  | nil => rfl
  | cons x xs ih =>
    rw [sortKeyDesc, filter_insertKeyDesc, ih, List.filter_cons]
    by_cases h : key x = c <;> simp [h]

theorem insertKeyDesc_map (key : β → Int) (f : α → β) (keyA : α → Int)
    (hkey : ∀ a, key (f a) = keyA a) (x : α) (l : List α) :
    insertKeyDesc key (f x) (l.map f) = (insertKeyDesc keyA x l).map f := by
  induction l with
  | nil => simp [insertKeyDesc]
  | cons y ys ih =>
    by_cases h : keyA y ≤ keyA x
    · simp [insertKeyDesc, hkey, h]
    · simp [insertKeyDesc, hkey, h, ih]

/-- `sortKeyDesc` commutes with mapping a key-preserving function. -/
theorem sortKeyDesc_map (key : β → Int) (f : α → β) (keyA : α → Int)
    (hkey : ∀ a, key (f a) = keyA a) (l : List α) :
    sortKeyDesc key (l.map f) = (sortKeyDesc keyA l).map f := by
  induction l with
  | nil => rfl
  | cons x xs ih => simp [sortKeyDesc, ih, insertKeyDesc_map key f keyA hkey]

/-- First observed rank, `data.ranks[0].rank` (only used under the
`ranks.length >= 2` guard, so the default is never hit). -/
def firstRankOf (d : PlayerData) : Int := (d.ranks.headD ⟨0, 0⟩).rank

/-- Last observed rank, `data.ranks[data.ranks.length - 1].rank` (only used
under the `ranks.length >= 2` guard, so the default is never hit). -/
def lastRankOf (d : PlayerData) : Int := (d.ranks.getLastD ⟨0, 0⟩).rank

/-- One movement entry pushed onto `changes` by `getWinners` / `getLosers`. -/
structure Change where
  id : String
  name : String
  team_tag : String
  country : String
  firstRank : Int
  lastRank : Int
  change : Int
deriving DecidableEq, Repr

/-- Loop body of `Stats.getWinners` (stats.js:295-317): skip entries with
fewer than 2 observations, skip entries whose last rank is above the scope,
keep entries with `change = firstRank - lastRank > 0`. -/
def winnersChangeOf (scope : Int) (e : String × PlayerData) : Option Change :=
  if e.2.ranks.length < 2 then none
  else if scope < lastRankOf e.2 then none
  else if 0 < firstRankOf e.2 - lastRankOf e.2 then
    some { id := e.1, name := e.2.name, team_tag := e.2.team_tag,
           country := e.2.country, firstRank := firstRankOf e.2,
           lastRank := lastRankOf e.2, change := firstRankOf e.2 - lastRankOf e.2 }
  else none

/-- Loop body of `Stats.getLosers` (stats.js:344-366): same as the winners
loop with `change = lastRank - firstRank`. -/
def losersChangeOf (scope : Int) (e : String × PlayerData) : Option Change :=
  if e.2.ranks.length < 2 then none
  else if scope < lastRankOf e.2 then none
  else if 0 < lastRankOf e.2 - firstRankOf e.2 then
    some { id := e.1, name := e.2.name, team_tag := e.2.team_tag,
           country := e.2.country, firstRank := firstRankOf e.2,
           lastRank := lastRankOf e.2, change := lastRankOf e.2 - firstRankOf e.2 }
  else none

/-- `Stats.getWinners` (stats.js:281-320): with `timeDays > 0` and a snapshot
array present, rebuild the history time-filtered, else use the given map;
collect the movement entries in iteration order, sort them stably in
descending `change` order, take the first `count`. -/
def getWinners (playerHistory : History) (count : Nat) (scope : Int)
    (timeDays : Nat) (snapshots : Option (List Snapshot)) (now : Int) : List Change :=
  ((sortKeyDesc (fun c => c.change)
    ((if 0 < timeDays ∧ snapshots.isSome then
        buildPlayerHistory (snapshots.getD []) timeDays now
      else playerHistory).filterMap (winnersChangeOf scope))).take count)

/-- `Stats.getLosers` (stats.js:330-369): the mirrored pipeline. -/
def getLosers (playerHistory : History) (count : Nat) (scope : Int)
    (timeDays : Nat) (snapshots : Option (List Snapshot)) (now : Int) : List Change :=
  ((sortKeyDesc (fun c => c.change)
    ((if 0 < timeDays ∧ snapshots.isSome then
        buildPlayerHistory (snapshots.getD []) timeDays now
      else playerHistory).filterMap (losersChangeOf scope))).take count)

/-- Specification-side pipeline for top movers, following the spec's words:
keep entities with at least 2 observations whose last observed rank is within
the scope cutoff and whose delta is positive, sort in descending delta order
(stable), take the first `count`. `delta` abstracts over the gainers
(`first - last`) and losers (`last - first`) sign convention. -/
def specTopMovers (delta : Int → Int → Int) (playerHistory : History)
    (count : Nat) (scope : Int) : List Change :=
  (sortKeyDesc (fun c => c.change)
    (playerHistory.filterMap (fun e =>
      if 2 ≤ e.2.ranks.length ∧ lastRankOf e.2 ≤ scope ∧
          0 < delta (firstRankOf e.2) (lastRankOf e.2) then
        some { id := e.1, name := e.2.name, team_tag := e.2.team_tag,
               country := e.2.country, firstRank := firstRankOf e.2,
               lastRank := lastRankOf e.2,
               change := delta (firstRankOf e.2) (lastRankOf e.2) }
      else none))).take count

theorem winnersChangeOf_eq_spec (scope : Int) (e : String × PlayerData) :
    winnersChangeOf scope e =
      (if 2 ≤ e.2.ranks.length ∧ lastRankOf e.2 ≤ scope ∧
          0 < firstRankOf e.2 - lastRankOf e.2 then
        some { id := e.1, name := e.2.name, team_tag := e.2.team_tag,
               country := e.2.country, firstRank := firstRankOf e.2,
               lastRank := lastRankOf e.2,
               change := firstRankOf e.2 - lastRankOf e.2 }
      else none) := by
  unfold winnersChangeOf
  split_ifs with h1 h2 h3 h4 h5 <;> try rfl
  all_goals omega

theorem losersChangeOf_eq_spec (scope : Int) (e : String × PlayerData) :
    losersChangeOf scope e =
      (if 2 ≤ e.2.ranks.length ∧ lastRankOf e.2 ≤ scope ∧
          0 < lastRankOf e.2 - firstRankOf e.2 then
        some { id := e.1, name := e.2.name, team_tag := e.2.team_tag,
               country := e.2.country, firstRank := firstRankOf e.2,
               lastRank := lastRankOf e.2,
               change := lastRankOf e.2 - firstRankOf e.2 }
      else none) := by
  unfold losersChangeOf
  split_ifs with h1 h2 h3 h4 h5 <;> try rfl
  all_goals omega

theorem winnersChangeOf_some (scope : Int) (a : String × PlayerData) (e : Change)
    (h : winnersChangeOf scope a = some e) :
    e.id = a.1 ∧ 2 ≤ a.2.ranks.length ∧ e.lastRank ≤ scope ∧ 0 < e.change ∧
      e.firstRank = firstRankOf a.2 ∧ e.lastRank = lastRankOf a.2 ∧
      e.change = firstRankOf a.2 - lastRankOf a.2 := by
  unfold winnersChangeOf at h
  split_ifs at h with h1 h2 h3
  cases h
  refine ⟨rfl, by omega, by simpa using not_lt.mp h2, by simpa using h3, rfl, rfl, rfl⟩

theorem losersChangeOf_some (scope : Int) (a : String × PlayerData) (e : Change)
    (h : losersChangeOf scope a = some e) :
    e.id = a.1 ∧ 2 ≤ a.2.ranks.length ∧ e.lastRank ≤ scope ∧ 0 < e.change ∧
      e.firstRank = firstRankOf a.2 ∧ e.lastRank = lastRankOf a.2 ∧
      e.change = lastRankOf a.2 - firstRankOf a.2 := by
  unfold losersChangeOf at h
  split_ifs at h with h1 h2 h3
  cases h
  refine ⟨rfl, by omega, by simpa using not_lt.mp h2, by simpa using h3, rfl, rfl, rfl⟩

theorem mem_getWinners (ph : History) (count : Nat) (scope : Int) (now : Int)
    (e : Change) (he : e ∈ getWinners ph count scope 0 none now) :
    ∃ a ∈ ph, winnersChangeOf scope a = some e := by
  unfold getWinners at he
  rw [if_neg (by simp)] at he
  have h1 : e ∈ sortKeyDesc (fun c => c.change) (ph.filterMap (winnersChangeOf scope)) :=
    List.take_subset _ _ he
  have h2 : e ∈ ph.filterMap (winnersChangeOf scope) :=
    (mem_sortKeyDesc _ e _).mp h1
  exact List.mem_filterMap.mp h2

theorem mem_getLosers (ph : History) (count : Nat) (scope : Int) (now : Int)
    (e : Change) (he : e ∈ getLosers ph count scope 0 none now) :
    ∃ a ∈ ph, losersChangeOf scope a = some e := by
  unfold getLosers at he
  rw [if_neg (by simp)] at he
  have h1 : e ∈ sortKeyDesc (fun c => c.change) (ph.filterMap (losersChangeOf scope)) :=
    List.take_subset _ _ he
  have h2 : e ∈ ph.filterMap (losersChangeOf scope) :=
    (mem_sortKeyDesc _ e _).mp h1
  exact List.mem_filterMap.mp h2

theorem nodup_keys_entry_eq {α β : Type _} (l : List (α × β))
    (h : (l.map Prod.fst).Nodup) {a b : α × β} (ha : a ∈ l) (hb : b ∈ l)
    (hfst : a.1 = b.1) : a = b := by
  induction l with
  | nil => cases ha
  | cons c rest ih =>
    rw [List.map_cons, List.nodup_cons] at h
    rcases List.mem_cons.mp ha with rfl | ha' <;>
      rcases List.mem_cons.mp hb with rfl | hb'
    · rfl
    · have hc : a.1 ∈ rest.map Prod.fst := by
        rw [hfst]; exact List.mem_map_of_mem Prod.fst hb'
      exact absurd hc h.1
    · have hc : b.1 ∈ rest.map Prod.fst := by
        rw [← hfst]; exact List.mem_map_of_mem Prod.fst ha'
      exact absurd hc h.1
    · exact ih h.2 ha' hb'

/-- C1: with no time filter (`timeDays = 0`), `getWinners` is exactly the
spec pipeline — entities with at least 2 observations whose last rank is
within the scope and with `delta = firstRank - lastRank > 0`, in descending
delta order with ties in original iteration order, first `count` taken — and
`getLosers` is the mirrored pipeline with `delta = lastRank - firstRank`;
consequently every returned entry has `lastRank ≤ scope` and positive
`change`. -/
theorem getWinners_getLosers_match_spec (ph : History) (count : Nat)
    (scope now : Int) :
    getWinners ph count scope 0 none now =
      specTopMovers (fun f l => f - l) ph count scope ∧
    getLosers ph count scope 0 none now =
      specTopMovers (fun f l => l - f) ph count scope ∧
    (∀ e ∈ getWinners ph count scope 0 none now, e.lastRank ≤ scope ∧ 0 < e.change) ∧
    (∀ e ∈ getLosers ph count scope 0 none now, e.lastRank ≤ scope ∧ 0 < e.change) := by
  refine ⟨?_, ?_, ?_, ?_⟩
  · unfold getWinners specTopMovers
    rw [if_neg (by simp)]
    rw [show winnersChangeOf scope = _ from funext (winnersChangeOf_eq_spec scope)]
  · unfold getLosers specTopMovers
    rw [if_neg (by simp)]
    rw [show losersChangeOf scope = _ from funext (losersChangeOf_eq_spec scope)]
  · intro e he
    obtain ⟨a, _, hsome⟩ := mem_getWinners ph count scope now e he
    have h := winnersChangeOf_some scope a e hsome
    exact ⟨h.2.2.1, h.2.2.2.1⟩
  · intro e he
    obtain ⟨a, _, hsome⟩ := mem_getLosers ph count scope now e he
    have h := losersChangeOf_some scope a e hsome
    exact ⟨h.2.2.1, h.2.2.2.1⟩

/-- Concrete two-player history used by the witnesses: player "a" improves
from rank 10 to rank 2 (gain 8), player "b" drops from rank 1 to rank 4
(loss 3). -/
def sampleHist : History :=
  [("a", { id := "a", name := "A", team_tag := "", team_id := "", country := "",
           ranks := [⟨0, 10⟩, ⟨1, 2⟩] }),
   ("b", { id := "b", name := "B", team_tag := "", team_id := "", country := "",
           ranks := [⟨0, 1⟩, ⟨1, 4⟩] })]

/-- Witness for C1: the one winner entry of the concrete history satisfies
the scope bound and positive change. -/
theorem getWinners_getLosers_match_spec_witness :
    ({ id := "a", name := "A", team_tag := "", country := "", firstRank := 10,
       lastRank := 2, change := 8 } : Change).lastRank ≤ 500 ∧
    0 < ({ id := "a", name := "A", team_tag := "", country := "", firstRank := 10,
           lastRank := 2, change := 8 } : Change).change :=
  (getWinners_getLosers_match_spec sampleHist 5 500 0).2.2.1
    { id := "a", name := "A", team_tag := "", country := "", firstRank := 10,
      lastRank := 2, change := 8 } (by decide)

/-- C10: on the same inputs (no time filter) the id sets of `getWinners` and
`getLosers` are disjoint: each id of the history map occurs at most once
(JavaScript object keys are unique), and a single entry cannot have both
`firstRank - lastRank > 0` and `lastRank - firstRank > 0`. -/
theorem getWinners_getLosers_disjoint (ph : History) (count : Nat)
    (scope now : Int) (hkeys : (ph.map Prod.fst).Nodup) :
    ∀ i, i ∈ (getWinners ph count scope 0 none now).map Change.id →
      i ∉ (getLosers ph count scope 0 none now).map Change.id := by
  intro i hw hl
  obtain ⟨e, he, heq⟩ := List.mem_map.mp hw
  obtain ⟨e', he', heq'⟩ := List.mem_map.mp hl
  obtain ⟨a, ha, hsa⟩ := mem_getWinners ph count scope now e he
  obtain ⟨b, hb, hsb⟩ := mem_getLosers ph count scope now e' he'
  have hA := winnersChangeOf_some scope a e hsa
  have hB := losersChangeOf_some scope b e' hsb
  have hab : a.1 = b.1 := by rw [← hA.1, ← hB.1, heq, heq']
  have hEq : a = b := nodup_keys_entry_eq ph hkeys ha hb hab
  have h1 : 0 < e.change := hA.2.2.2.1
  have h2 : 0 < e'.change := hB.2.2.2.1
  have h3 : e.change = firstRankOf a.2 - lastRankOf a.2 := hA.2.2.2.2.2.2
  have h4 : e'.change = lastRankOf b.2 - firstRankOf b.2 := hB.2.2.2.2.2.2
  rw [← hEq] at h4
  omega

/-- Witness for C10: in the concrete history, "a" is a winner id and is not
among the loser ids. -/
theorem getWinners_getLosers_disjoint_witness :
    ¬ ("a" ∈ (getLosers sampleHist 5 500 0 none 0).map Change.id) :=
  getWinners_getLosers_disjoint sampleHist 5 500 0 (by decide) "a" (by decide)

/-- Negation of one observation's rank (used to state the spec's mirror
symmetry between winners and losers). -/
def negateObs (o : Obs) : Obs := { o with rank := -o.rank }

/-- Rank-negated player history entry. -/
def negateData (d : PlayerData) : PlayerData := { d with ranks := d.ranks.map negateObs }

/-- Rank-negated history: every rank of every observation replaced by its
negation; keys, order and all other fields unchanged. -/
def negateHistory (ph : History) : History :=
  ph.map (fun e => (e.1, negateData e.2))

/-- Movement entry with both endpoint ranks negated (what the losers pipeline
produces on a negated history); `id` and `change` are untouched. -/
def negateChange (e : Change) : Change :=
  { e with firstRank := -e.firstRank, lastRank := -e.lastRank }

theorem firstRankOf_negateData (d : PlayerData) :
    firstRankOf (negateData d) = -firstRankOf d := by
  unfold firstRankOf negateData
  cases d.ranks with
  | nil => simp [negateObs]
  | cons a l => simp [negateObs]

theorem getLastD_map_negateObs (l : List Obs) (d : Obs) :
    (l.map negateObs).getLastD (negateObs d) = negateObs (l.getLastD d) := by
  induction l generalizing d with
  | nil => rfl
  | cons a l ih => rw [List.map_cons, List.getLastD_cons, List.getLastD_cons, ih]

theorem lastRankOf_negateData (d : PlayerData) :
    lastRankOf (negateData d) = -lastRankOf d := by
  unfold lastRankOf negateData
  cases d.ranks with
  | nil => simp [negateObs]
  | cons a l =>
    rw [List.map_cons, List.getLastD_cons, List.getLastD_cons,
      getLastD_map_negateObs l a]
    rfl

theorem losersChangeOf_negate (scope : Int) (e : String × PlayerData)
    (hscope : 2 ≤ e.2.ranks.length →
      lastRankOf e.2 ≤ scope ∧ -lastRankOf e.2 ≤ scope) :
    losersChangeOf scope (e.1, negateData e.2) =
      (winnersChangeOf scope e).map negateChange := by
  unfold losersChangeOf winnersChangeOf
  simp only [firstRankOf_negateData, lastRankOf_negateData]
  have hlen : (negateData e.2).ranks.length = e.2.ranks.length := by
    unfold negateData
    simp
  rw [hlen]
  by_cases h1 : e.2.ranks.length < 2
  · simp [h1]
  · obtain ⟨hs1, hs2⟩ := hscope (by omega)
    have hc1 : ¬ scope < -lastRankOf e.2 := by omega
    have hc2 : ¬ scope < lastRankOf e.2 := by omega
    by_cases h3 : 0 < firstRankOf e.2 - lastRankOf e.2
    · have h3' : 0 < -lastRankOf e.2 - -firstRankOf e.2 := by omega
      simp only [if_neg h1, if_neg hc1, if_neg hc2, if_pos h3, if_pos h3',
        Option.map_some]
      simp [negateData, negateChange, Change.mk.injEq]
      omega
    · have h3' : ¬ 0 < -lastRankOf e.2 - -firstRankOf e.2 := by omega
      simp only [if_neg h1, if_neg hc1, if_neg hc2, if_neg h3, if_neg h3']
      rfl

theorem negateHistory_filterMap (ph : History) (scope : Int)
    (h : ∀ e ∈ ph, 2 ≤ e.2.ranks.length →
      lastRankOf e.2 ≤ scope ∧ -lastRankOf e.2 ≤ scope) :
    (negateHistory ph).filterMap (losersChangeOf scope) =
      (ph.filterMap (winnersChangeOf scope)).map negateChange := by
  unfold negateHistory
  rw [List.filterMap_map, List.map_filterMap]
  exact List.filterMap_congr (fun e he => losersChangeOf_negate scope e (h e he))

/-- C2 amended: `getLosers` on the rank-negated history returns the same
entities (ids) in the same order as `getWinners` on the original history,
provided every entity with at least 2 observations has its last observed
rank within `[-scope, scope]` — the scope filter compares the (negated) last
rank against the same cutoff on both sides, so without this bound the two
sides can disagree (see the counterexample). -/
theorem getLosers_negate_eq_getWinners (ph : History) (count : Nat)
    (scope now : Int)
    (h : ∀ e ∈ ph, 2 ≤ e.2.ranks.length →
      lastRankOf e.2 ≤ scope ∧ -lastRankOf e.2 ≤ scope) :
    (getLosers (negateHistory ph) count scope 0 none now).map Change.id =
      (getWinners ph count scope 0 none now).map Change.id := by
  unfold getLosers getWinners
  rw [if_neg (by simp), if_neg (by simp)]
  rw [negateHistory_filterMap ph scope h]
  rw [sortKeyDesc_map (fun c => c.change) negateChange (fun c => c.change)
    (fun a => rfl)]
  rw [← List.map_take, List.map_map,
    show Change.id ∘ negateChange = Change.id from funext fun a => rfl]

/-- Witness for C2 (amended): on the concrete history, the loser ids of the
negated history equal the winner ids of the original. -/
theorem getLosers_negate_eq_getWinners_witness :
    (getLosers (negateHistory sampleHist) 5 500 0 none 0).map Change.id =
      (getWinners sampleHist 5 500 0 none 0).map Change.id :=
  getLosers_negate_eq_getWinners sampleHist 5 500 0 (by decide)

/-- Single-player history (10 → 5) used to refute C2 as stated. -/
def narrowScopeHist : History :=
  [("a", { id := "a", name := "A", team_tag := "", team_id := "", country := "",
           ranks := [⟨0, 10⟩, ⟨1, 5⟩] })]

/-- Counterexample to C2 as stated: with scope cutoff 1, player "a"
(10 → 5, last rank 5) is filtered out of `getWinners`, but on the negated
history the last rank is −5 ≤ 1, so "a" is returned by `getLosers`: the two
sides differ. -/
theorem getLosers_negate_counterexample :
    ¬ ((getLosers (negateHistory narrowScopeHist) 5 1 0 none 0).map Change.id =
       (getWinners narrowScopeHist 5 1 0 none 0).map Change.id) := by
  decide

/-- One entry of the `volatility` array in `getGeneralStats`
(stats.js:388-398); its `name` field receives the `Object.entries` key. -/
structure Volatility where
  name : String
  totalMovement : Int
  team_tag : String
deriving DecidableEq, Repr

/-- Result record of `Stats.getGeneralStats` (stats.js:404-413); `dateRange`
is flattened into `dateFrom` / `dateTo`. -/
structure GeneralStats where
  totalSnapshots : Nat
  newEntries : Nat
  droppedOut : Nat
  mostVolatile : List Volatility
  dateFrom : Int
  dateTo : Int
deriving DecidableEq, Repr

/-- Auxiliary recursion for `dedupFirst`, with the set of already-seen
elements accumulated. -/
def dedupFirstAux (seen : List String) : List String → List String
  | [] => []
  | x :: xs =>
    if x ∈ seen then dedupFirstAux seen xs
    else x :: dedupFirstAux (x :: seen) xs

/-- Deduplication keeping first occurrences in order: the element sequence of
`new Set(array)` in JavaScript. -/
def dedupFirst (l : List String) : List String := dedupFirstAux [] l

/-- Total movement of a rank series: the sum of absolute deltas of every
consecutive observation pair (stats.js:392-395). -/
def absDeltaSum : List Obs → Int
  | [] => 0
  | [_] => 0
  | a :: b :: rest => ((b.rank - a.rank).natAbs : Int) + absDeltaSum (b :: rest)

/-- `Stats.getGeneralStats` (stats.js:374-414). Roster changes are computed
from the `name` fields of the first and last snapshot; volatility entries
carry the history key as their `name`. -/
def getGeneralStats (snapshots : List Snapshot) (playerHistory : History) :
    GeneralStats :=
  { totalSnapshots := snapshots.length,
    newEntries :=
      ((dedupFirst ((snapshots.getLastD ⟨0, []⟩).players.map (fun p => p.name))).filter
        (fun n => decide (n ∉ (snapshots.headD ⟨0, []⟩).players.map (fun p => p.name)))).length,
    droppedOut :=
      ((dedupFirst ((snapshots.headD ⟨0, []⟩).players.map (fun p => p.name))).filter
        (fun n => decide (n ∉ (snapshots.getLastD ⟨0, []⟩).players.map (fun p => p.name)))).length,
    mostVolatile :=
      (sortKeyDesc (fun v => v.totalMovement)
        (playerHistory.filterMap (fun e =>
          if e.2.ranks.length < 2 then none
          else some { name := e.1, totalMovement := absDeltaSum e.2.ranks,
                      team_tag := e.2.team_tag }))).take 3,
    dateFrom := (snapshots.headD ⟨0, []⟩).timestamp,
    dateTo := (snapshots.getLastD ⟨0, []⟩).timestamp }

/-- Specification-side count, following the spec's words: the number of
resolved entity ids present in the last snapshot but not in the first. -/
def specIdNewEntries (snapshots : List Snapshot) : Nat :=
  ((dedupFirst ((snapshots.getLastD ⟨0, []⟩).players.map getPlayerId)).filter
    (fun i => decide (i ∉ (snapshots.headD ⟨0, []⟩).players.map getPlayerId))).length

/-- Specification-side count, following the spec's words: the number of
resolved entity ids present in the first snapshot but not in the last. -/
def specIdDroppedOut (snapshots : List Snapshot) : Nat :=
  ((dedupFirst ((snapshots.headD ⟨0, []⟩).players.map getPlayerId)).filter
    (fun i => decide (i ∉ (snapshots.getLastD ⟨0, []⟩).players.map getPlayerId))).length

theorem mem_dedupFirstAux (seen l : List String) (a : String) :
    a ∈ dedupFirstAux seen l ↔ a ∈ l ∧ a ∉ seen := by
  induction l generalizing seen with
  | nil => simp [dedupFirstAux]
  | cons x xs ih =>
    by_cases hx : x ∈ seen
    · rw [dedupFirstAux, if_pos hx, ih]
      constructor
      · rintro ⟨h1, h2⟩
        exact ⟨List.mem_cons_of_mem x h1, h2⟩
      · rintro ⟨h1, h2⟩
        rcases List.mem_cons.mp h1 with rfl | h1
        · exact absurd hx h2
        · exact ⟨h1, h2⟩
    · rw [dedupFirstAux, if_neg hx]
      simp only [List.mem_cons, ih, List.mem_cons]
      constructor
      · rintro (rfl | ⟨h1, h2⟩)
        · exact ⟨Or.inl rfl, hx⟩
        · exact ⟨Or.inr h1, fun hs => h2 (Or.inr hs)⟩
      · rintro ⟨rfl | h1, h2⟩
        · exact Or.inl rfl
        · by_cases hax : a = x
          · exact Or.inl hax
          · exact Or.inr ⟨h1, fun hs => by
              rcases hs with hs | hs
              · exact hax hs
              · exact h2 hs⟩

theorem nodup_dedupFirstAux (seen l : List String) :
    (dedupFirstAux seen l).Nodup := by
  induction l generalizing seen with
  | nil => simp [dedupFirstAux]
  | cons x xs ih =>
    by_cases hx : x ∈ seen
    · rw [dedupFirstAux, if_pos hx]
      exact ih seen
    · rw [dedupFirstAux, if_neg hx]
      refine List.nodup_cons.mpr ⟨?_, ih (x :: seen)⟩
      intro hmem
      exact ((mem_dedupFirstAux (x :: seen) xs x).mp hmem).2 (List.mem_cons_self x seen)

theorem length_dedupFirst_filter (l m : List String) :
    ((dedupFirst l).filter (fun n => decide (n ∉ m))).length =
      (l.toFinset \ m.toFinset).card := by
  have hnd : ((dedupFirst l).filter (fun n => decide (n ∉ m))).Nodup :=
    List.Nodup.filter _ (nodup_dedupFirstAux [] l)
  have hts : ((dedupFirst l).filter (fun n => decide (n ∉ m))).toFinset =
      l.toFinset \ m.toFinset := by
    ext a
    rw [List.mem_toFinset, List.mem_filter, Finset.mem_sdiff, List.mem_toFinset,
      List.mem_toFinset]
    simp [dedupFirst, mem_dedupFirstAux]
  rw [← hts, List.toFinset_card_of_nodup hnd]

/-- C3 amended: for every non-empty snapshot sequence, `getGeneralStats`
computes the new-entries count as the cardinality of the set of names
present in the last snapshot but not in the first, and the dropped-out count
symmetrically — roster changes are a set difference of player names, not of
resolved entity ids. -/
theorem getGeneralStats_roster_by_name (snapshots : List Snapshot)
    (playerHistory : History) (_h : snapshots ≠ []) :
    (getGeneralStats snapshots playerHistory).newEntries =
      (((snapshots.getLastD ⟨0, []⟩).players.map (fun p => p.name)).toFinset \
        ((snapshots.headD ⟨0, []⟩).players.map (fun p => p.name)).toFinset).card ∧
    (getGeneralStats snapshots playerHistory).droppedOut =
      (((snapshots.headD ⟨0, []⟩).players.map (fun p => p.name)).toFinset \
        ((snapshots.getLastD ⟨0, []⟩).players.map (fun p => p.name)).toFinset).card :=
  ⟨length_dedupFirst_filter _ _, length_dedupFirst_filter _ _⟩

/-- Players used by the C3 roster theorems: same name, different country, so
their names coincide while their resolved ids differ. -/
def recNamedSE : PlayerRec :=
  { id := "", name := "n", team_tag := "", team_id := "", country := "SE", rank := 1 }

/-- Variant of `recNamedSE` with country "US". -/
def recNamedUS : PlayerRec :=
  { id := "", name := "n", team_tag := "", team_id := "", country := "US", rank := 1 }

/-- Counterexample to C3 as stated: between a first snapshot holding only
`recNamedSE` and a last snapshot holding only `recNamedUS`, the resolved ids
differ ("n|SE" vs "n|US"), so the id-set differences both have size 1, but
`getGeneralStats` reports 0 new entries and 0 dropped out because it
compares `name` sets, and the names coincide. -/
theorem getGeneralStats_roster_counterexample :
    (getGeneralStats [⟨0, [recNamedSE]⟩, ⟨1, [recNamedUS]⟩] []).newEntries = 0 ∧
    specIdNewEntries [⟨0, [recNamedSE]⟩, ⟨1, [recNamedUS]⟩] = 1 ∧
    (getGeneralStats [⟨0, [recNamedSE]⟩, ⟨1, [recNamedUS]⟩] []).droppedOut = 0 ∧
    specIdDroppedOut [⟨0, [recNamedSE]⟩, ⟨1, [recNamedUS]⟩] = 1 := by
  decide

/-- Witness for C3 (amended): concrete snapshots where one player enters and
one leaves, counted by name-set difference. -/
theorem getGeneralStats_roster_by_name_witness :
    (getGeneralStats [⟨0, [recNamedSE]⟩, ⟨1, [recNamedUS]⟩] []).newEntries =
      (((([⟨0, [recNamedSE]⟩, ⟨1, [recNamedUS]⟩] : List Snapshot).getLastD
            ⟨0, []⟩).players.map (fun p => p.name)).toFinset \
        ((([⟨0, [recNamedSE]⟩, ⟨1, [recNamedUS]⟩] : List Snapshot).headD
            ⟨0, []⟩).players.map (fun p => p.name)).toFinset).card :=
  (getGeneralStats_roster_by_name [⟨0, [recNamedSE]⟩, ⟨1, [recNamedUS]⟩] []
    (by simp)).1

/-- One invocation of the `onSnapshotChange` callback: the current snapshot
and the previous one (`null` modelled as `none`). -/
structure SnapEvent where
  current : Snapshot
  previous : Option Snapshot
deriving DecidableEq, Repr

/-- Mutable state of the `Timeline` player (stats.js:478-806): the loaded
snapshot sequence, the current index and the playing flag. DOM fields,
labels and the interval handle are rendering concerns and carry no further
state relevant to the transitions. -/
structure TLState where
  snapshots : List Snapshot
  currentIndex : Nat
  isPlaying : Bool
deriving DecidableEq, Repr

/-- `Timeline.goToIndex` (stats.js:785-798): inside the `0 <= index < N`
guard, set the index, then always invoke the callback with `snapshot[index]`
as current and the pre-transition `snapshot[previousIndex]` as previous
(the `previousIndex >= 0` test of the source is always true here, the index
being a natural number). Out of range, nothing happens. The returned list
holds the callback invocations, in order. -/
def goToIndex (st : TLState) (index : Nat) : TLState × List SnapEvent :=
  if index < st.snapshots.length then
    ({ st with currentIndex := index },
     [{ current := st.snapshots.getD index ⟨0, []⟩,
        previous := some (st.snapshots.getD st.currentIndex ⟨0, []⟩) }])
  else (st, [])

/-- `Timeline.startPlay` (stats.js:640-687): set the playing flag; if the
current index is at (or past) the last snapshot, reset it to 0 and invoke
the callback with `snapshots[0]` and `null` previous, scheduling the first
tick only after a delay; otherwise start ticking from the current index with
no callback. Scroll handling is presentation only. -/
def startPlay (st : TLState) : TLState × List SnapEvent :=
  if st.snapshots.length - 1 ≤ st.currentIndex then
    ({ st with isPlaying := true, currentIndex := 0 },
     [{ current := st.snapshots.getD 0 ⟨0, []⟩, previous := none }])
  else ({ st with isPlaying := true }, [])

/-- One firing of the `setInterval` callback installed by
`Timeline.startInterval` (stats.js:692-711): below the last index, advance
by one and invoke the callback with the new current and old previous
snapshot; at the last index, `stopPlay` (clear the playing flag, cancel the
interval), with no callback. -/
def tick (st : TLState) : TLState × List SnapEvent :=
  if st.currentIndex < st.snapshots.length - 1 then
    ({ st with currentIndex := st.currentIndex + 1 },
     [{ current := st.snapshots.getD (st.currentIndex + 1) ⟨0, []⟩,
        previous := some (st.snapshots.getD st.currentIndex ⟨0, []⟩) }])
  else ({ st with isPlaying := false }, [])

/-- C4 amended: for every in-range target `j` (including `j` equal to the
current index), `goToIndex` sets the index to `j` and fires the callback
exactly once, with `snapshot[j]` as current and the pre-transition
`snapshot[i]` as previous; `j = i` is not a no-op — the state is unchanged
but the callback still fires once, with equal current and previous. -/
theorem goToIndex_fires_once (st : TLState) (j : Nat)
    (hj : j < st.snapshots.length) :
    goToIndex st j =
      ({ st with currentIndex := j },
       [{ current := st.snapshots.getD j ⟨0, []⟩,
          previous := some (st.snapshots.getD st.currentIndex ⟨0, []⟩) }]) := by
  unfold goToIndex
  rw [if_pos hj]

/-- Witness for C4 (amended): a concrete seek to index 0 from index 1 fires
one callback carrying snapshot 0 and previous snapshot 1. -/
theorem goToIndex_fires_once_witness :
    goToIndex { snapshots := [⟨0, []⟩, ⟨1, []⟩], currentIndex := 1,
                isPlaying := false } 0 =
      ({ snapshots := [⟨0, []⟩, ⟨1, []⟩], currentIndex := 0, isPlaying := false },
       [{ current := ([⟨0, []⟩, ⟨1, []⟩] : List Snapshot).getD 0 ⟨0, []⟩,
          previous := some (([⟨0, []⟩, ⟨1, []⟩] : List Snapshot).getD 1 ⟨0, []⟩) }]) :=
  goToIndex_fires_once
    { snapshots := [⟨0, []⟩, ⟨1, []⟩], currentIndex := 1, isPlaying := false } 0
    (by decide)

/-- Counterexample to C4 as stated: seeking to the current index (`j = i = 1`
with two snapshots loaded) is claimed to fire no callback, but `goToIndex`
has no `j != i` guard (only the slider handler does) and fires the callback
once, with `snapshot[1]` as both current and previous. -/
theorem goToIndex_self_counterexample :
    (goToIndex { snapshots := [⟨0, []⟩, ⟨1, []⟩], currentIndex := 1,
                 isPlaying := false } 1).2 ≠ [] := by
  decide

/-- C7: calling `startPlay` while paused at the last index of an `N ≥ 2`
sequence resets the index to 0 and fires exactly one callback with `null`
previous, before any tick advances the index; and a tick firing at the last
index stops playback (the playing flag clears, the index stays put, no
callback) instead of looping. -/
theorem startPlay_reset_and_tick_stop (st st' : TLState)
    (_h1 : 2 ≤ st.snapshots.length) (h2 : st.currentIndex = st.snapshots.length - 1)
    (_h3 : st.isPlaying = false)
    (_h1' : 2 ≤ st'.snapshots.length)
    (h2' : st'.currentIndex = st'.snapshots.length - 1)
    (_h3' : st'.isPlaying = true) :
    startPlay st = ({ st with isPlaying := true, currentIndex := 0 },
      [{ current := st.snapshots.getD 0 ⟨0, []⟩, previous := none }]) ∧
    tick st' = ({ st' with isPlaying := false }, []) := by
  constructor
  · unfold startPlay
    rw [if_pos (by omega)]
  · unfold tick
    rw [if_neg (by omega)]

/-- Witness for C7: with two concrete snapshots, playing from the end resets
to index 0 with a null-previous callback, and a tick at the end stops. -/
theorem startPlay_reset_and_tick_stop_witness :
    startPlay { snapshots := [⟨0, []⟩, ⟨1, []⟩], currentIndex := 1,
                isPlaying := false } =
      ({ snapshots := [⟨0, []⟩, ⟨1, []⟩], currentIndex := 0, isPlaying := true },
       [{ current := ([⟨0, []⟩, ⟨1, []⟩] : List Snapshot).getD 0 ⟨0, []⟩,
          previous := none }]) ∧
    tick { snapshots := [⟨0, []⟩, ⟨1, []⟩], currentIndex := 1, isPlaying := true } =
      ({ snapshots := [⟨0, []⟩, ⟨1, []⟩], currentIndex := 1, isPlaying := false },
       []) :=
  startPlay_reset_and_tick_stop
    { snapshots := [⟨0, []⟩, ⟨1, []⟩], currentIndex := 1, isPlaying := false }
    { snapshots := [⟨0, []⟩, ⟨1, []⟩], currentIndex := 1, isPlaying := true }
    (by decide) (by decide) rfl (by decide) (by decide) rfl

/-- Affiliation tags observed for entity `k`, in processing order: the
`team_tag` field of every record of the observation list whose resolved id
is `k` (empty string = absent). -/
def tagsOf (k : String) : List (Int × PlayerRec) → List String
  | [] => []
  | tp :: rest =>
    if getPlayerId tp.2 = k then tp.2.team_tag :: tagsOf k rest
    else tagsOf k rest

/-- Carried-forward affiliation tag after folding a tag sequence over an
initial value: each non-empty tag overwrites, each empty tag is ignored. -/
def carryTag (t0 : String) (tags : List String) : String :=
  tags.foldl (fun acc t => if t = "" then acc else t) t0

theorem histUpdate_lookup_ne (h : History) (pid : String) (p : PlayerRec)
    (ts : Int) (k : String) (hk : k ≠ pid) :
    histLookup k (histUpdate h pid p ts) = histLookup k h := by
  have hk' : ¬ (pid = k) := fun e => hk e.symm
  induction h with
  | nil => simp [histUpdate, histLookup, hk']
  | cons e rest ih =>
    obtain ⟨k', d⟩ := e
    by_cases he : k' = pid
    · subst he
      simp [histUpdate, histLookup, hk']
    · simp only [histUpdate, if_neg he, histLookup]
      by_cases hck : k' = k
      · rw [if_pos hck, if_pos hck]
      · rw [if_neg hck, if_neg hck]
        exact ih

theorem histUpdate_lookup_eq (h : History) (pid : String) (p : PlayerRec)
    (ts : Int) :
    histLookup pid (histUpdate h pid p ts) =
      some (match histLookup pid h with
            | some d => updData d p ts
            | none => freshData pid p ts) := by
  induction h with
  | nil => simp [histUpdate, histLookup]
  | cons e rest ih =>
    obtain ⟨k', d⟩ := e
    by_cases he : k' = pid
    · subst he
      simp [histUpdate, histLookup]
    · simp [histUpdate, histLookup, he, ih]

theorem foldl_histStep_team_tag (obs : List (Int × PlayerRec)) (h : History)
    (k : String) :
    Option.map (fun d => d.team_tag) (histLookup k (obs.foldl histStep h)) =
      match histLookup k h with
      | some d => some (carryTag d.team_tag (tagsOf k obs))
      | none =>
        if tagsOf k obs = [] then none else some (carryTag "" (tagsOf k obs)) := by
  induction obs generalizing h with
  | nil =>
    cases hl : histLookup k h <;> simp [tagsOf, carryTag, hl]
  | cons tp rest ih =>
    obtain ⟨ts, p⟩ := tp
    rw [List.foldl_cons, ih (histStep h (ts, p))]
    by_cases hp : getPlayerId p = k
    · rw [show histStep h (ts, p) = histUpdate h (getPlayerId p) p ts from rfl, hp,
        histUpdate_lookup_eq]
      simp only [tagsOf, if_pos hp]
      cases hl : histLookup k h with
      | some d => rfl
      | none =>
        by_cases ht : p.team_tag = "" <;>
          simp [carryTag, freshData, List.foldl_cons, ht]
    · rw [show histStep h (ts, p) = histUpdate h (getPlayerId p) p ts from rfl,
        histUpdate_lookup_ne h (getPlayerId p) p ts k (fun e => hp e.symm)]
      simp only [tagsOf, if_neg hp]

theorem carryTag_eq_getLastD (tags : List String) (t0 : String) :
    carryTag t0 tags = (tags.filter (fun t => decide (t ≠ ""))).getLastD t0 := by
  induction tags generalizing t0 with
  | nil => rfl
  | cons t ts ih =>
    by_cases ht : t = ""
    · subst ht
      have h1 : carryTag t0 ("" :: ts) = carryTag t0 ts := by
        simp [carryTag]
      have h2 : ("" :: ts).filter (fun t => decide (t ≠ "")) =
          ts.filter (fun t => decide (t ≠ "")) := by
        simp [List.filter_cons]
      rw [h1, h2]
      exact ih t0
    · have h1 : carryTag t0 (t :: ts) = carryTag t ts := by
        simp [carryTag, ht]
      have h2 : (t :: ts).filter (fun t => decide (t ≠ "")) =
          t :: ts.filter (fun t => decide (t ≠ "")) := by
        simp [List.filter_cons, ht]
      rw [h1, h2, List.getLastD_cons]
      exact ih t

/-- Records used by the C5 concrete scenario: entity "x" with tag "T1" in
snapshot 1, no tag in snapshot 2, tag "T3" in snapshot 3. -/
def recTagT1 : PlayerRec :=
  { id := "x", name := "x", team_tag := "T1", team_id := "", country := "", rank := 5 }

/-- Snapshot-2 record of the C5 scenario: empty (absent) tag. -/
def recTagNone : PlayerRec :=
  { id := "x", name := "x", team_tag := "", team_id := "", country := "", rank := 6 }

/-- Snapshot-3 record of the C5 scenario: a different tag. -/
def recTagT3 : PlayerRec :=
  { id := "x", name := "x", team_tag := "T3", team_id := "", country := "", rank := 7 }

/-- C5: in the history built by `buildPlayerHistory`, every entity's
`team_tag` equals the last non-empty affiliation value observed for it (or
the empty string when none was observed — a later empty observation never
clears an earlier value); in particular, in a run where the tag is "T1" in
snapshot 1, absent in snapshot 2 and "T3" in snapshot 3, the final tag is
"T3", and after the first two snapshots it is still "T1". -/
theorem buildPlayerHistory_carry_forward :
    (∀ (snapshots : List Snapshot) (timeDays : Nat) (now : Int) (k : String)
      (d : PlayerData),
      histLookup k (buildPlayerHistory snapshots timeDays now) = some d →
      d.team_tag =
        ((tagsOf k (obsList (filterSnapshotsByTime snapshots timeDays now))).filter
          (fun t => decide (t ≠ ""))).getLastD "") ∧
    Option.map (fun d => d.team_tag)
      (histLookup "x" (buildPlayerHistory
        [⟨0, [recTagT1]⟩, ⟨1, [recTagNone]⟩, ⟨2, [recTagT3]⟩] 0 0)) = some "T3" ∧
    Option.map (fun d => d.team_tag)
      (histLookup "x" (buildPlayerHistory
        [⟨0, [recTagT1]⟩, ⟨1, [recTagNone]⟩] 0 0)) = some "T1" := by
  refine ⟨?_, by decide, by decide⟩
  intro snapshots timeDays now k d hd
  have hmain := foldl_histStep_team_tag
    (obsList (filterSnapshotsByTime snapshots timeDays now)) [] k
  rw [show ((obsList (filterSnapshotsByTime snapshots timeDays now)).foldl histStep []) =
      buildPlayerHistory snapshots timeDays now from rfl, hd] at hmain
  simp only [histLookup] at hmain
  by_cases he : tagsOf k (obsList (filterSnapshotsByTime snapshots timeDays now)) = []
  · rw [if_pos he] at hmain
    cases hmain
  · rw [if_neg he] at hmain
    have : d.team_tag =
        carryTag "" (tagsOf k (obsList (filterSnapshotsByTime snapshots timeDays now))) := by
      exact (Option.some.inj hmain)
    rw [this, carryTag_eq_getLastD]

/-- Witness for C5: the general carry-forward equation instantiated on the
concrete three-snapshot scenario. -/
theorem buildPlayerHistory_carry_forward_witness :
    ({ id := "x", name := "x", team_tag := "T3", team_id := "", country := "",
       ranks := [⟨0, 5⟩, ⟨1, 6⟩, ⟨2, 7⟩] } : PlayerData).team_tag =
      ((tagsOf "x" (obsList (filterSnapshotsByTime
          [⟨0, [recTagT1]⟩, ⟨1, [recTagNone]⟩, ⟨2, [recTagT3]⟩] 0 0))).filter
        (fun t => decide (t ≠ ""))).getLastD "" :=
  buildPlayerHistory_carry_forward.1
    [⟨0, [recTagT1]⟩, ⟨1, [recTagNone]⟩, ⟨2, [recTagT3]⟩] 0 0 "x"
    { id := "x", name := "x", team_tag := "T3", team_id := "", country := "",
      ranks := [⟨0, 5⟩, ⟨1, 6⟩, ⟨2, 7⟩] } (by decide)
